import Mathlib

/-!
Verification of the Digital-Tool-Box soundscape pipeline.

This file gives a shallow embedding of the two source files of the
repository — `src/app/process_script.py` (the Job Runner: category codec,
scene reshape, coordinate engine, normalizer, job-store writes) and
`src/main.py` (the submission handler: job store creation, cleanup sweep,
result fetch) — and proves or refutes the specified properties of the
pipeline against that embedding.

Modelling conventions:
* Python floats are idealized as real numbers `ℝ`.
* Python strings are Lean `String`s; the string operations the source
  relies on (`str.split`, `"sep".join`, `int(...)`, `str(...)`) are
  re-implemented character-level below so that they mirror Python
  semantics and reduce inside the kernel.
* The JSON job store (`results_meta.json`) is an association list from
  job id to a record of the fields the source reads and writes.
* The filesystem is abstracted as predicates/flags: plot rendering and
  file existence are external collaborators per the specification.
-/

namespace ToolBox

/-! ## Character-level string helpers (Python `split` / `join` / `int` / `str`) -/

/-- Python `s.split(sep)` for a one-character separator, on the character
list of the string.  `acc` is the current (reversed) fragment. -/
def pySplitAux (sep : Char) : List Char → List Char → List (List Char)
  | [], acc => [acc.reverse]
  | c :: rest, acc =>
    if c = sep then acc.reverse :: pySplitAux sep rest []
    else pySplitAux sep rest (c :: acc)

/-- Python `s.split(sep)` for a one-character separator. -/
def pySplit (sep : Char) (s : String) : List String :=
  (pySplitAux sep s.data []).map String.mk

/-- Character-level `sep.join`: interleave a one-character separator. -/
def joinSep (sep : Char) : List (List Char) → List Char
  | [] => []
  | [s] => s
  | s :: rest => s ++ sep :: joinSep sep rest

/-- Python `sep.join(strs)` for a one-character separator. -/
def pyIntercalate (sep : Char) (l : List String) : String :=
  String.mk (joinSep sep (l.map String.data))

/-- The decimal digit character for `n < 10`. -/
def digitChar (n : Nat) : Char := Char.ofNat (48 + n)

/-- The numeric value of a decimal digit character. -/
def digitVal (c : Char) : Nat := c.toNat - 48

/-- Fuel-driven decimal printer accumulating least-significant digits;
mirrors CPython's decimal printing of a non-negative `int`. -/
def toDigitsCore : Nat → Nat → List Char → List Char
  | 0, _, acc => acc
  | fuel + 1, n, acc =>
    if n < 10 then digitChar n :: acc
    else toDigitsCore fuel (n / 10) (digitChar (n % 10) :: acc)

/-- Python `str(n)` for a non-negative integer. -/
def natToString (n : Nat) : String := String.mk (toDigitsCore (n + 1) n [])

/-- Python `int(s)` for an all-digit string: its decimal value. -/
def pyNat? (cs : List Char) : Option Nat :=
  if cs ≠ [] ∧ cs.all Char.isDigit then
    some (Nat.ofDigits 10 ((cs.map digitVal).reverse))
  else none

/-- The surrounding-whitespace stripping `int(...)` performs first. -/
def pyStrip (s : String) : List Char :=
  ((s.data.dropWhile (· = ' ')).reverse.dropWhile (· = ' ')).reverse

/-- The sign handling of `int(...)`: an optional leading `-` or `+` before
a non-empty run of decimal digits. -/
def pySignedInt (c : Char) (rest : List Char) : Option Int :=
  if c = '-' then (pyNat? rest).map (fun n => -(n : Int))
  else if c = '+' then (pyNat? rest).map (fun n => (n : Int))
  else (pyNat? (c :: rest)).map (fun n => (n : Int))

/-- Python `int(s)`: strips surrounding spaces, accepts an optional sign,
then requires a non-empty run of decimal digits; `none` models the
`ValueError` that `int` raises otherwise. -/
def pyInt? (s : String) : Option Int :=
  match pyStrip s with
  | [] => none
  | c :: rest => pySignedInt c rest

/-- `Path(p).name`: the final component after the last `/`. -/
def basename (s : String) : String := (pySplit '/' s).getLastD s

/-! ## Coordinate Engine (`calculate_coordinates`, lines 116–120) -/

/-- `np.deg2rad`: degrees to radians. -/
noncomputable def deg2rad (d : ℝ) : ℝ := d * Real.pi / 180

/-- `calculate_coordinates(e, v, p, ca, u, m, a, ch)`:
`P = (p - a) + cos(deg2rad 45)·(ca - ch) + cos(deg2rad 45)·(v - m)`,
`E = (e - u) + cos(deg2rad 45)·(ch - ca) + cos(deg2rad 45)·(v - m)`. -/
noncomputable def calculate_coordinates (e v p ca u m a ch : ℝ) : ℝ × ℝ :=
  ((p - a) + Real.cos (deg2rad 45) * (ca - ch) + Real.cos (deg2rad 45) * (v - m),
   (e - u) + Real.cos (deg2rad 45) * (ch - ca) + Real.cos (deg2rad 45) * (v - m))

/-! ## Normalizer (`signed_normalize_fixed`, lines 135–149) -/

/-- `np.clip(x, lo, hi)` on a scalar. -/
noncomputable def pyClip (x lo hi : ℝ) : ℝ := min hi (max lo x)

/-- One element of `signed_normalize_fixed`: divide by the fixed maximum,
then clip into `[-1, 1]`. -/
noncomputable def normalize1 (v fixed_max : ℝ) : ℝ := pyClip (v / fixed_max) (-1) 1

/-- `signed_normalize_fixed(arr, fixed_max)` elementwise. -/
noncomputable def signed_normalize_fixed (arr : List ℝ) (fixed_max : ℝ) : List ℝ :=
  arr.map (fun v => normalize1 v fixed_max)

/-- The module-level constant `FIXED_MAX = 7.0` (line 27). -/
noncomputable def FIXED_MAX : ℝ := 7

/-! ## Category Codec and Scene Table Builder
(`data_preprocessing`, lines 51–88; `restore_category_from_scene`, lines 90–111)

The input Excel table is modelled by its columns: the `ID` column (after the
source's `re.sub(r'Assessment \d+', 'Assessment ')` normalization of the ID
strings), the data columns (every column that is neither `ID` nor a category
column; the rating columns are among these), and the category columns (those
whose name matches the regex `^Category`, reflected here by the well-formedness
predicate `RawTable.WF`). -/

/-- Python string `<` (lexicographic by code point) on character lists. -/
def charListLt : List Char → List Char → Bool
  | [], [] => false
  | [], _ :: _ => true
  | _ :: _, [] => false
  | a :: as, b :: bs =>
    if a.toNat < b.toNat then true
    else if b.toNat < a.toNat then false
    else charListLt as bs

/-- Python string `<=` by code point. -/
def strLe (a b : String) : Bool := !(charListLt b.data a.data)

/-- Insert into a sorted list (insertion-sort step). -/
def orderedInsertB (le : String → String → Bool) (a : String) :
    List String → List String
  | [] => [a]
  | b :: l => if le a b then a :: b :: l else b :: orderedInsertB le a l

/-- Insertion sort with a boolean order. -/
def insertionSortB (le : String → String → Bool) : List String → List String
  | [] => []
  | a :: l => orderedInsertB le a (insertionSortB le l)

/-- The category list of `df[col].astype("category")`: the distinct values of
the column in sorted order.  `cat.codes` are positions in this list and
`dict(enumerate(df[col].cat.categories))` maps each position back. -/
def sortedDedup (l : List String) : List String := insertionSortB strLe l.dedup

/-- One row-wise column of the input table (column name, cell per row). -/
structure RawTable where
  ids : List String
  dataCols : List (String × List ℝ)
  catCols : List (String × List String)

/-- Well-formed input table: rectangular (each column has one cell per row)
and, as in any pandas frame, no duplicated data-column names. -/
def RawTable.WF (t : RawTable) : Prop :=
  (∀ c ∈ t.dataCols, c.2.length = t.ids.length) ∧
  (∀ c ∈ t.catCols, c.2.length = t.ids.length) ∧
  (t.dataCols.map Prod.fst).Nodup

instance (t : RawTable) : Decidable t.WF :=
  inferInstanceAs (Decidable
    ((∀ c ∈ t.dataCols, c.2.length = t.ids.length) ∧
     (∀ c ∈ t.catCols, c.2.length = t.ids.length) ∧
     (t.dataCols.map Prod.fst).Nodup))

/-- The fixed rating vocabulary used to order the reshaped rows
(`desired_order`, line 81). -/
def desired_order : List String :=
  ["eventful", "vibrant", "pleasant", "calm", "uneventful", "monotonous",
   "annoying", "chaotic"]

/-- The row arrangement of the pivoted frame: data columns become rows,
ordered by `desired_order` (pandas `Categorical` sort); columns whose name is
not in the vocabulary sort last (their `Categorical` value is NaN). -/
def sortDataCols (cols : List (String × List ℝ)) : List (String × List ℝ) :=
  (desired_order.filterMap (fun nm => cols.find? (fun c => c.1 == nm))) ++
    cols.filter (fun c => !(desired_order.contains c.1))

/-- The integer codes of one row's category values: `cat.codes` is the
position of the value in the sorted distinct values of its column. -/
def rowCodes (t : RawTable) (r : Nat) : List Nat :=
  t.catCols.map (fun c => (sortedDedup c.2).indexOf (c.2.getD r ""))

/-- The composite scene key of one row
(`df["scene"] = scene + "_" + codes.agg("_".join)`, line 71). -/
def sceneKey (id : String) (codes : List Nat) : String :=
  id ++ "_" ++ pyIntercalate '_' (codes.map natToString)

/-- What `data_preprocessing` returns: the per-row composite scene keys
(the pivot's columns), the pivoted data rows in vocabulary order, and the
per-column category maps (`category_maps`). -/
structure PreprocResult where
  sceneKeys : List String
  dataRows : List (String × List ℝ)
  maps : List (String × List String)

/-- `data_preprocessing(df)` (lines 51–88). -/
def data_preprocessing (t : RawTable) : PreprocResult :=
  { sceneKeys :=
      (List.range t.ids.length).map
        (fun r => sceneKey (t.ids.getD r "") (rowCodes t r)),
    dataRows := sortDataCols t.dataCols,
    maps := t.catCols.map (fun c => (c.1, sortedDedup c.2)) }

/-- `dict(enumerate(categories)).get(code, "unknown")` (line 104). -/
def decodeCode (cats : List String) (code : Int) : String :=
  if code < 0 then "unknown" else (cats.get? code.toNat).getD "unknown"

/-- The `ValueError` message of Python `int(...)` on a non-numeric string. -/
def intErrMsg : String := "ValueError: invalid literal for int() with base 10"

/-- All-or-first-error map over `Except` (each Python exception aborts the
enclosing computation). -/
def mapExcept (f : α → Except String β) : List α → Except String (List β)
  | [] => .ok []
  | a :: as =>
    match f a with
    | .error e => .error e
    | .ok b =>
      match mapExcept f as with
      | .error e => .error e
      | .ok bs => .ok (b :: bs)

/-- One `cat_map.get(int(code_str), "unknown")` step of the decoding loop
(lines 102–104): parse the code segment with `int` (whose `ValueError`
aborts the whole call) and look it up in the category map. -/
def decodeSegment (cats : List String) (s : String) : Except String String :=
  match pyInt? s with
  | some code => .ok (decodeCode cats code)
  | none => .error intErrMsg

/-- `restore_category_from_scene(scene, category_maps)` (lines 90–111):
split the key on `_`, decode each code segment against the maps in column
order (`zip` truncates to the shorter side), and join the decoded labels
with `+` after the base label.  `int(code_str)` raising `ValueError` is
modelled by the `Except.error` result. -/
def restore_category_from_scene (scene : String)
    (maps : List (String × List String)) : Except String String :=
  let parts : List String := pySplit '_' scene
  if parts.length < 2 then .ok scene
  else
    match mapExcept (fun pr => decodeSegment pr.1.2 pr.2)
        (maps.zip parts.tail) with
    | .error e => .error e
    | .ok decoded => .ok (parts.headD "" ++ "_" ++ pyIntercalate '+' decoded)

/-! ## Coordinate computation over the reshaped table
(`compute_P_E`, lines 122–130; `main`, lines 314–432) -/

/-- The `ValueError` of unpacking a tuple whose length is not 8
(`e, v, p, ca, u, m, a, ch = values`, line 126). -/
def unpackMsg : String := "ValueError: values to unpack (expected 8)"

/-- One scene of `compute_P_E`: unpack exactly eight ratings (in the
vocabulary order the pivot established) and apply the coordinate engine. -/
noncomputable def scene_PE (vs : List ℝ) : Except String (ℝ × ℝ) :=
  match vs with
  | [e, v, p, ca, u, m, a, ch] => .ok (calculate_coordinates e v p ca u m a ch)
  | _ => .error unpackMsg

/-- `compute_P_E(locations)` (lines 122–130): per-scene P and E lists, or
the uncaught `ValueError` of the first scene whose vector is not length 8. -/
noncomputable def compute_P_E :
    List (String × List ℝ) → Except String (List ℝ × List ℝ)
  | [] => .ok ([], [])
  | (_, vs) :: rest =>
    match scene_PE vs with
    | .error e => .error e
    | .ok (P, E) =>
      match compute_P_E rest with
      | .error e => .error e
      | .ok (ps, es) => .ok (P :: ps, E :: es)

/-- The `locations` dictionary built in `main` (lines 326–330): read the
table, preprocess, rename every pivot column with
`restore_category_from_scene`, and take each scene's data column as its
rating vector.  Any raised exception is an `Except.error` (this part runs
inside the runner's `try`).  The source stores these in a dict keyed by the
restored scene name (silent overwrite on duplicates); the association list
here keeps the same pairs in the same order. -/
def build_locations (t : RawTable) : Except String (List (String × List ℝ)) :=
  match mapExcept
      (fun k => restore_category_from_scene k (data_preprocessing t).maps)
      (data_preprocessing t).sceneKeys with
  | .error e => .error e
  | .ok keys =>
    .ok ((List.range t.ids.length).map
      (fun r => (keys.getD r "",
        (data_preprocessing t).dataRows.map (fun c => c.2.getD r 0))))

/-! ## Job Store (`results_meta.json`) -/

/-- One job record: the fields the source reads and writes. -/
structure JobRec where
  file_id : String := ""
  filename : String := ""
  status : String := ""
  processed_at : Option String := none
  plots : List String := []
  preview_html : String := ""
deriving DecidableEq, Repr

/-- The persisted store: a JSON object keyed by job id. -/
abbrev MetaStore := List (String × JobRec)

/-- `update_meta(file_id, **kwargs)` (process_script lines 44–49 and main.py
lines 54–59): merge fields into the entry if it exists, otherwise do
nothing. -/
def update_meta (meta : MetaStore) (id : String) (f : JobRec → JobRec) :
    MetaStore :=
  if (meta.lookup id).isSome then
    meta.map (fun kv => if kv.1 == id then (kv.1, f kv.2) else kv)
  else meta

/-- `meta[file_id] = record` (insert-or-replace): used by `add_meta_entry`
(main.py lines 43–52) and by the runner's success-path terminal write
(process_script lines 414–426, where every field is assigned). -/
def setMeta (meta : MetaStore) (id : String) (r : JobRec) : MetaStore :=
  if (meta.lookup id).isSome then
    meta.map (fun kv => if kv.1 == id then (kv.1, r) else kv)
  else meta ++ [(id, r)]

/-! ## Job Runner (`main`, lines 314–435) -/

/-- Outcome of one run of the processing script: the final job store, whether
the uploaded input file was removed, and — when an exception escaped the
`try`/`except` — the uncaught error (the process dies with a traceback and
nothing after that point executes). -/
structure RunResult where
  meta : MetaStore
  inputDeleted : Bool
  crashed : Option String
deriving DecidableEq

/-- `main()` of `process_script.py`.  `input` is `none` when
`pd.read_excel`/preprocessing raises (unreadable file, missing `ID`
column…).  `now` is `datetime.utcnow().isoformat()`; `preview` is the HTML
preview produced by `df.head(10).to_html` (external rendering); `plot1_ok`
and `plot2_ok` say whether each per-artifact `try` around the plot renderer
succeeded.  The normalizer runs on the raw coordinate lists with the
configured `fixed_max` before the artifacts are produced. -/
noncomputable def main_run (fixed_max : ℝ) : Option RawTable → String →
    String → String → String → Bool → Bool → MetaStore → RunResult
  | none, _, file_id, _, _, _, _, meta0 =>
    -- `except Exception` (lines 331–334): mark error, return; no deletion.
    { meta := update_meta meta0 file_id (fun r => { r with status := "error" }),
      inputDeleted := false, crashed := none }
  | some t, file_path, file_id, now, preview, plot1_ok, plot2_ok, meta0 =>
    match build_locations t with
    | .error _ =>
      { meta := update_meta meta0 file_id (fun r => { r with status := "error" }),
        inputDeleted := false, crashed := none }
    | .ok locations =>
      -- Lines 343 onward run outside the `try`: an exception here is uncaught.
      match compute_P_E locations with
      | .error msg => { meta := meta0, inputDeleted := false, crashed := some msg }
      | .ok (P_raw, E_raw) =>
        let P_norm := signed_normalize_fixed P_raw fixed_max
        let E_norm := signed_normalize_fixed E_raw fixed_max
        let plots :=
          (if plot1_ok then [file_id ++ "_plot1.png"] else []) ++
          (if plot2_ok then [file_id ++ "_plot2.png"] else [])
        let record : JobRec :=
          { file_id := file_id, filename := basename file_path,
            status := "done", processed_at := some now, plots := plots,
            preview_html := preview }
        { meta := setMeta meta0 file_id record, inputDeleted := true,
          crashed := none }

/-! ## Submission handler (`main.py`) -/

/-- The meta-purging pass of `cleanup_old_files` (main.py lines 75–82): keep
an entry iff at least one of its recorded plot files exists on disk
(`any((ROOT / p).exists() for p in v.get("plots", []))`); `ex` abstracts the
filesystem existence check of the path the source tests. -/
def cleanup_meta (meta : MetaStore) (ex : String → Bool) : MetaStore :=
  meta.filter (fun kv => kv.2.plots.any ex)

/-- An HTTP response of the result-serving endpoint. -/
inductive Resp where
  | fileResponse (path : String)
  | notFound
deriving DecidableEq

/-- `get_result(file_id, filename)` (main.py lines 137–142): the path is
`RESULT_DIR / filename`; the `file_id` path segment is never used. -/
def get_result (file_id filename : String) (ex : String → Bool) : Resp :=
  if ex ("results/" ++ filename) then .fileResponse ("results/" ++ filename)
  else .notFound

/-! ## Concrete tables and records used by witnesses and counterexamples -/

/-- A well-formed one-scene table with all eight rating columns. -/
def tblGood : RawTable :=
  { ids := ["sceneA"],
    dataCols :=
      [("eventful", [4]), ("vibrant", [3]), ("pleasant", [5]), ("calm", [4]),
       ("uneventful", [2]), ("monotonous", [3]), ("annoying", [2]),
       ("chaotic", [1])],
    catCols := [("Category1", ["x"])] }

/-- The same table with the required rating column `calm` absent. -/
def tblMissingCalm : RawTable :=
  { ids := ["sceneA"],
    dataCols :=
      [("eventful", [4]), ("vibrant", [3]), ("pleasant", [5]),
       ("uneventful", [2]), ("monotonous", [3]), ("annoying", [2]),
       ("chaotic", [1])],
    catCols := [] }

/-- A table whose base identity label contains the `_` separator. -/
def tblUnderscore : RawTable :=
  { ids := ["a_b"], dataCols := [], catCols := [("Category1", ["x"])] }

/-- A job entry as created by `add_meta_entry` at submission. -/
def procRec : JobRec :=
  { file_id := "j1", filename := "f.xlsx", status := "processing",
    processed_at := none, plots := [], preview_html := "" }

/-! ## Helper lemmas for the normalizer -/

lemma cos_deg2rad_45 : Real.cos (deg2rad 45) = Real.sqrt 2 / 2 := by
  have h : deg2rad 45 = Real.pi / 4 := by
    unfold deg2rad; ring
  rw [h, Real.cos_pi_div_four]

lemma pyClip_of_abs_le {t : ℝ} (h : |t| ≤ 1) : pyClip t (-1) 1 = t := by
  rcases abs_le.mp h with ⟨h1, h2⟩
  unfold pyClip
  rw [max_eq_right h1, min_eq_right h2]

lemma normalize1_of_abs_le {x m : ℝ} (h1 : 0 < m) (h2 : |x| ≤ m) :
    normalize1 x m = x / m := by
  have habs : |x / m| ≤ 1 := by
    rw [abs_div, abs_of_pos h1, div_le_one h1]; exact h2
  unfold normalize1
  exact pyClip_of_abs_le habs

/-! ## Claim theorems: Coordinate Engine and Normalizer -/

/-- Claim C3 (confirmed).  For all real inputs, the coordinate function
returns `P = (p - a) + (√2/2)·(ca - ch) + (√2/2)·(v - m)` and
`E = (e - u) + (√2/2)·(ch - ca) + (√2/2)·(v - m)`; the constant is exactly
`√2/2` (cos 45° in radians), and the function is a pure (deterministic,
total) function of its eight real arguments. -/
theorem spec_c3_coordinates (e v p ca u m a ch : ℝ) :
    calculate_coordinates e v p ca u m a ch =
      ((p - a) + Real.sqrt 2 / 2 * (ca - ch) + Real.sqrt 2 / 2 * (v - m),
       (e - u) + Real.sqrt 2 / 2 * (ch - ca) + Real.sqrt 2 / 2 * (v - m)) := by
  unfold calculate_coordinates
  rw [cos_deg2rad_45]

/-- Claim C4 (confirmed).  For every real `v` and maximum `m > 0`,
`normalize(v, m) = clip(v / m, -1, 1)`, hence `|normalize(v, m)| ≤ 1`, with
equality exactly when `|v| ≥ m`. -/
theorem spec_c4_normalize_bounds (v m : ℝ) (hm : 0 < m) :
    normalize1 v m = pyClip (v / m) (-1) 1 ∧
    |normalize1 v m| ≤ 1 ∧ (|normalize1 v m| = 1 ↔ m ≤ |v|) := by
  refine ⟨rfl, ?_, ?_⟩
  · unfold normalize1 pyClip
    rw [abs_le]
    exact ⟨le_min (by norm_num) (le_max_left _ _), min_le_left _ _⟩
  · have habs : m ≤ |v| ↔ 1 ≤ |v / m| := by
      rw [abs_div, abs_of_pos hm, one_le_div hm]
    rw [habs]
    unfold normalize1 pyClip
    rcases le_or_lt 1 (v / m) with h1 | h1
    · rw [max_eq_right (le_trans (by norm_num) h1), min_eq_left h1, abs_one]
      exact iff_of_true rfl (le_trans h1 (le_abs_self _))
    · rcases le_or_lt (v / m) (-1) with h2 | h2
      · rw [max_eq_left h2, min_eq_right (by norm_num), abs_neg, abs_one]
        have hge : (1 : ℝ) ≤ -(v / m) := by linarith
        exact iff_of_true rfl (hge.trans ((le_abs_self _).trans_eq (abs_neg _)))
      · rw [max_eq_right h2.le, min_eq_right h1.le]
        have hlt : |v / m| < 1 := abs_lt.mpr ⟨h2, h1⟩
        exact iff_of_false (ne_of_lt hlt) (not_le.mpr hlt)

/-- Witness for C4 at `v = 3`, `m = 2`. -/
theorem spec_c4_witness :
    (0 : ℝ) < 2 ∧
    (normalize1 3 2 = pyClip ((3 : ℝ) / 2) (-1) 1 ∧
     |normalize1 3 2| ≤ 1 ∧ (|normalize1 3 2| = 1 ↔ (2 : ℝ) ≤ |(3 : ℝ)|)) :=
  ⟨by norm_num, spec_c4_normalize_bounds 3 2 (by norm_num)⟩

/-- Counterexample to claim C5 as stated.  At `x = 6`, `m = 7` (which
satisfies the claim's side condition `|x| ≤ m`) the normalizer is not
idempotent: `normalize(normalize(6, 7), 7) = 6/49 ≠ 6/7 = normalize(6, 7)`,
because the second application divides by the maximum again. -/
theorem spec_c5_counterexample :
    |(6 : ℝ)| ≤ 7 ∧ normalize1 (normalize1 6 7) 7 ≠ normalize1 6 7 := by
  have h1 : normalize1 (6 : ℝ) 7 = 6 / 7 :=
    normalize1_of_abs_le (by norm_num)
      (by rw [abs_of_nonneg (by norm_num : (0 : ℝ) ≤ 6)]; norm_num)
  constructor
  · rw [abs_of_nonneg (by norm_num : (0 : ℝ) ≤ 6)]; norm_num
  · rw [h1]
    have h2 : normalize1 ((6 : ℝ) / 7) 7 = 6 / 7 / 7 :=
      normalize1_of_abs_le (by norm_num)
        (by rw [abs_of_nonneg (by norm_num : (0 : ℝ) ≤ 6 / 7)]; norm_num)
    rw [h2]
    norm_num

/-- Claim C5 (corrected).  Applying the normalizer twice is not the identity
on its first application: for `m > 0` and `|x| ≤ m`, the second application
divides by `m` again, so
`normalize(normalize(x, m), m) = normalize(x / m, m)` — which differs from
`normalize(x, m)` in general (idempotence holds only in degenerate cases
such as `x = 0` or `m = 1`). -/
theorem spec_c5_amended (x m : ℝ) (h1 : 0 < m) (h2 : |x| ≤ m) :
    normalize1 (normalize1 x m) m = normalize1 (x / m) m := by
  rw [normalize1_of_abs_le h1 h2]

/-- Witness for the amended C5 at `x = 6`, `m = 7`. -/
theorem spec_c5_witness :
    (0 : ℝ) < 7 ∧ |(6 : ℝ)| ≤ 7 ∧
    normalize1 (normalize1 6 7) 7 = normalize1 ((6 : ℝ) / 7) 7 :=
  ⟨by norm_num, by rw [abs_of_nonneg (by norm_num : (0 : ℝ) ≤ 6)]; norm_num,
    spec_c5_amended 6 7 (by norm_num)
      (by rw [abs_of_nonneg (by norm_num : (0 : ℝ) ≤ 6)]; norm_num)⟩

/-- Claim C10 (confirmed).  The artifact-fetch endpoint resolves the file by
filename alone inside the results directory: its response is identical for
any two job-id path segments. -/
theorem spec_c10_get_result (id1 id2 filename : String) (ex : String → Bool) :
    get_result id1 filename ex = get_result id2 filename ex := rfl

/-! ## Splitting and joining -/

lemma pySplitAux_no_sep {sep : Char} {a : List Char} (ha : ∀ c ∈ a, c ≠ sep) :
    ∀ acc, pySplitAux sep a acc = [acc.reverse ++ a] := by
  induction a with
  | nil => intro acc; simp [pySplitAux]
  | cons c rest ih =>
    intro acc
    have hc : c ≠ sep := ha c (List.mem_cons_self c rest)
    simp only [pySplitAux, if_neg hc]
    rw [ih (fun x hx => ha x (List.mem_cons_of_mem c hx)) (c :: acc)]
    simp

lemma pySplitAux_append {sep : Char} {a : List Char}
    (ha : ∀ c ∈ a, c ≠ sep) (b : List Char) :
    ∀ acc, pySplitAux sep (a ++ sep :: b) acc =
      (acc.reverse ++ a) :: pySplitAux sep b [] := by
  induction a with
  | nil => intro acc; simp [pySplitAux]
  | cons c rest ih =>
    intro acc
    have hc : c ≠ sep := ha c (List.mem_cons_self c rest)
    simp only [List.cons_append, pySplitAux, if_neg hc, List.append_eq]
    rw [ih (fun x hx => ha x (List.mem_cons_of_mem c hx)) (c :: acc)]
    simp

lemma pySplitAux_joinSep {sep : Char} {strs : List (List Char)}
    (hne : strs ≠ [])
    (h : ∀ s ∈ strs, ∀ c ∈ s, c ≠ sep) :
    pySplitAux sep (joinSep sep strs) [] = strs := by
  induction strs with
  | nil => exact absurd rfl hne
  | cons s rest ih =>
    cases rest with
    | nil =>
      simpa [joinSep] using
        pySplitAux_no_sep (h s (List.mem_cons_self s [])) []
    | cons s2 rest2 =>
      have hs : ∀ c ∈ s, c ≠ sep := h s (List.mem_cons_self _ _)
      show pySplitAux sep (s ++ sep :: joinSep sep (s2 :: rest2)) [] = _
      rw [pySplitAux_append hs _ []]
      simp only [List.reverse_nil, List.nil_append, List.cons.injEq, true_and]
      exact ih (by simp) (fun x hx => h x (List.mem_cons_of_mem s hx))

/-! ## Decimal printing and parsing round trip -/

lemma toDigitsCore_acc (fuel : Nat) :
    ∀ n acc, toDigitsCore fuel n acc = toDigitsCore fuel n [] ++ acc := by
  induction fuel with
  | zero => intro n acc; simp [toDigitsCore]
  | succ fuel ih =>
    intro n acc
    by_cases h : n < 10
    · simp [toDigitsCore, if_pos h]
    · simp only [toDigitsCore, if_neg h]
      rw [ih (n / 10) (digitChar (n % 10) :: acc),
        ih (n / 10) (digitChar (n % 10) :: [])]
      simp

lemma toDigitsCore_eq_digits :
    ∀ n fuel, n < fuel → toDigitsCore fuel n [] =
      (if n = 0 then [0] else (Nat.digits 10 n).reverse).map digitChar := by
  intro n
  induction n using Nat.strong_induction_on with
  | _ n ih =>
    intro fuel hfuel
    cases fuel with
    | zero => omega
    | succ fuel =>
      by_cases h : n < 10
      · simp only [toDigitsCore, if_pos h]
        by_cases h0 : n = 0
        · subst h0; simp
        · rw [if_neg h0, Nat.digits_def' (by norm_num : 1 < 10) (Nat.pos_of_ne_zero h0)]
          rw [Nat.mod_eq_of_lt h, Nat.div_eq_of_lt h]
          simp
      · simp only [toDigitsCore, if_neg h]
        rw [toDigitsCore_acc]
        have hdiv : n / 10 < n := Nat.div_lt_self (by omega) (by norm_num)
        rw [ih (n / 10) hdiv fuel (by omega)]
        have hd0 : n / 10 ≠ 0 := by omega
        rw [if_neg hd0, if_neg (by omega : ¬ n = 0)]
        rw [Nat.digits_def' (by norm_num : 1 < 10) (by omega : 0 < n)]
        simp

lemma digitChar_isDigit : ∀ d < 10, (digitChar d).isDigit = true ∧
    digitVal (digitChar d) = d := by decide

lemma isDigit_props {c : Char} (h : c.isDigit = true) :
    c ≠ '_' ∧ c ≠ ' ' ∧ c ≠ '-' ∧ c ≠ '+' := by
  refine ⟨?_, ?_, ?_, ?_⟩ <;> (intro hc; subst hc; exact absurd h (by decide))

lemma natToString_data (n : Nat) :
    (natToString n).data =
      (if n = 0 then [0] else (Nat.digits 10 n).reverse).map digitChar :=
  toDigitsCore_eq_digits n (n + 1) (Nat.lt_succ_self n)

lemma natToString_digits_lt (n : Nat) :
    ∀ d ∈ (if n = 0 then [0] else (Nat.digits 10 n).reverse), d < 10 := by
  intro d hd
  by_cases h0 : n = 0
  · rw [if_pos h0] at hd
    simp at hd
    omega
  · rw [if_neg h0] at hd
    exact Nat.digits_lt_base (by norm_num) (List.mem_reverse.mp hd)

lemma natToString_all_digit (n : Nat) :
    ∀ c ∈ (natToString n).data, c.isDigit = true := by
  rw [natToString_data]
  intro c hc
  rcases List.mem_map.mp hc with ⟨d, hd, rfl⟩
  exact (digitChar_isDigit d (natToString_digits_lt n d hd)).1

lemma dropWhile_all {p : Char → Bool} :
    ∀ l : List Char, (∀ c ∈ l, p c = false) → l.dropWhile p = l
  | [], _ => rfl
  | c :: rest, h => by
    simp [List.dropWhile_cons, h c (List.mem_cons_self c rest)]

lemma pyStrip_of_digits {s : String} (h : ∀ c ∈ s.data, c.isDigit = true) :
    pyStrip s = s.data := by
  unfold pyStrip
  have hns : ∀ c ∈ s.data, (fun c => decide (c = ' ')) c = false := by
    intro c hc
    exact decide_eq_false (isDigit_props (h c hc)).2.1
  rw [dropWhile_all _ hns,
    dropWhile_all _ (fun c hc => hns c (List.mem_reverse.mp hc)),
    List.reverse_reverse]

lemma map_digitVal_digitChar :
    ∀ D : List Nat, (∀ d ∈ D, d < 10) → D.map (digitVal ∘ digitChar) = D := by
  intro D
  induction D with
  | nil => intro _; rfl
  | cons d D ih =>
    intro h
    simp only [List.map_cons, List.cons.injEq]
    exact ⟨(digitChar_isDigit d (h d (List.mem_cons_self _ _))).2,
      ih (fun x hx => h x (List.mem_cons_of_mem _ hx))⟩

lemma pyNat?_digits {D : List Nat} (hD : D ≠ []) (hlt : ∀ d ∈ D, d < 10) :
    pyNat? (D.map digitChar) = some (Nat.ofDigits 10 D.reverse) := by
  unfold pyNat?
  rw [if_pos]
  · congr 1
    rw [List.map_map, map_digitVal_digitChar D hlt]
  · constructor
    · simp [hD]
    · rw [List.all_eq_true]
      intro c hc
      rcases List.mem_map.mp hc with ⟨d, hd, rfl⟩
      exact (digitChar_isDigit d (hlt d hd)).1

lemma pyInt?_natToString (n : Nat) :
    pyInt? (natToString n) = some (n : Int) := by
  have hdata := natToString_data n
  have hstrip : pyStrip (natToString n) =
      (if n = 0 then [0] else (Nat.digits 10 n).reverse).map digitChar := by
    rw [pyStrip_of_digits (natToString_all_digit n), hdata]
  have hlt := natToString_digits_lt n
  have hne : (if n = 0 then [0] else (Nat.digits 10 n).reverse) ≠ [] := by
    by_cases h0 : n = 0
    · simp [h0]
    · simp [h0, Nat.digits_ne_nil_iff_ne_zero]
  unfold pyInt?
  rcases hD : (if n = 0 then [0] else (Nat.digits 10 n).reverse) with _ | ⟨d, D2⟩
  · exact absurd hD hne
  · rw [hD] at hstrip hlt
    rw [hstrip]
    have hd10 : d < 10 := hlt d (List.mem_cons_self _ _)
    have hprops := isDigit_props (digitChar_isDigit d hd10).1
    show pySignedInt (digitChar d) (D2.map digitChar) = some (n : Int)
    unfold pySignedInt
    rw [if_neg hprops.2.2.1, if_neg hprops.2.2.2, ← List.map_cons,
      pyNat?_digits (by simp) hlt]
    have hofd : Nat.ofDigits 10 (d :: D2).reverse = n := by
      rw [show d :: D2 = if n = 0 then [0] else (Nat.digits 10 n).reverse from
        hD.symm]
      by_cases h0 : n = 0
      · simp [h0]
      · rw [if_neg h0, List.reverse_reverse, Nat.ofDigits_digits]
    rw [hofd]
    rfl

/-! ## Category Codec round trip -/

lemma perm_orderedInsertB (le : String → String → Bool) (a : String) :
    ∀ l : List String, (orderedInsertB le a l).Perm (a :: l)
  | [] => List.Perm.refl _
  | b :: l => by
    unfold orderedInsertB
    by_cases h : le a b
    · rw [if_pos h]
    · rw [if_neg h]
      exact ((perm_orderedInsertB le a l).cons b).trans (List.Perm.swap a b l)

lemma perm_insertionSortB (le : String → String → Bool) :
    ∀ l : List String, (insertionSortB le l).Perm l
  | [] => List.Perm.refl _
  | a :: l =>
    (perm_orderedInsertB le a (insertionSortB le l)).trans
      ((perm_insertionSortB le l).cons a)

lemma mem_sortedDedup {a : String} {l : List String} :
    a ∈ sortedDedup l ↔ a ∈ l := by
  unfold sortedDedup
  rw [(perm_insertionSortB strLe l.dedup).mem_iff, List.mem_dedup]

lemma decodeCode_indexOf {cats : List String} {v : String} (h : v ∈ cats) :
    decodeCode cats ((cats.indexOf v : Nat) : Int) = v := by
  unfold decodeCode
  rw [if_neg (not_lt.mpr (Int.natCast_nonneg _)), Int.toNat_natCast,
    List.indexOf_get? h]
  rfl

lemma sceneKey_data (id : String) (codes : List Nat) :
    (sceneKey id codes).data =
      id.data ++ '_' :: joinSep '_' ((codes.map natToString).map String.data) := by
  unfold sceneKey pyIntercalate
  simp [String.data_append]

lemma natToString_no_sep (n : Nat) : ∀ c ∈ (natToString n).data, c ≠ '_' :=
  fun c hc => (isDigit_props (natToString_all_digit n c hc)).1

lemma map_mk_data : ∀ l : List String, (l.map String.data).map String.mk = l
  | [] => rfl
  | s :: l => by rw [List.map_cons, List.map_cons, map_mk_data l]

lemma decodeSegment_natToString (cats : List String) (n : Nat) :
    decodeSegment cats (natToString n) = .ok (decodeCode cats (n : Int)) := by
  unfold decodeSegment
  rw [pyInt?_natToString]

lemma getD_mem_of_lt {α : Type} {l : List α} {r : Nat} (h : r < l.length)
    (d : α) : l.getD r d ∈ l := by
  rw [List.getD_eq_getElem l d h]
  exact l.getElem_mem h

lemma decode_zip (r : Nat) (cs : List (String × List String))
    (hlen : ∀ c ∈ cs, r < c.2.length) :
    mapExcept (fun pr => decodeSegment pr.1.2 pr.2)
      ((cs.map (fun c => (c.1, sortedDedup c.2))).zip
        (cs.map (fun c =>
          natToString ((sortedDedup c.2).indexOf (c.2.getD r ""))))) =
      .ok (cs.map (fun c => c.2.getD r "")) := by
  induction cs with
  | nil => rfl
  | cons c cs ih =>
    have hv : c.2.getD r "" ∈ sortedDedup c.2 :=
      mem_sortedDedup.mpr (getD_mem_of_lt (hlen c (List.mem_cons_self _ _)) _)
    have ih2 := ih (fun x hx => hlen x (List.mem_cons_of_mem _ hx))
    simp only [List.zip] at ih2
    simp only [List.map_cons, List.zip_cons_cons, mapExcept,
      decodeSegment_natToString, decodeCode_indexOf hv, List.zip, ih2]

lemma mk_data (s : String) : String.mk s.data = s := rfl

/-- Round trip of the codec on one scene key, for any list of category
columns: encoding a row's category values and decoding the produced key
against the maps of the same pass recovers the base label and every
original value, provided the base label does not contain the `_`
separator. -/
lemma restore_key_generic (id : String) (hid : ∀ c ∈ id.data, c ≠ '_')
    (cs : List (String × List String)) (r : Nat)
    (hlen : ∀ c ∈ cs, r < c.2.length) :
    restore_category_from_scene
        (sceneKey id
          (cs.map (fun c => (sortedDedup c.2).indexOf (c.2.getD r ""))))
        (cs.map (fun c => (c.1, sortedDedup c.2)))
      = .ok (id ++ "_" ++ pyIntercalate '+' (cs.map (fun c => c.2.getD r ""))) := by
  have hmm : ((cs.map (fun c => (sortedDedup c.2).indexOf (c.2.getD r ""))).map
        natToString) =
      cs.map (fun c => natToString ((sortedDedup c.2).indexOf (c.2.getD r ""))) := by
    rw [List.map_map]
    rfl
  cases cs with
  | nil =>
    unfold restore_category_from_scene pySplit
    rw [sceneKey_data]
    simp only [List.map_nil, joinSep]
    rw [pySplitAux_append hid _ []]
    simp [pySplitAux, mapExcept, mk_data]
  | cons c0 cs0 =>
    have hstrsne : (((c0 :: cs0).map (fun c =>
        natToString ((sortedDedup c.2).indexOf (c.2.getD r "")))).map
          String.data) ≠ [] := by simp
    have hnosep : ∀ s ∈ ((c0 :: cs0).map (fun c =>
        natToString ((sortedDedup c.2).indexOf (c.2.getD r "")))).map
          String.data, ∀ ch ∈ s, ch ≠ '_' := by
      intro s hs
      rcases List.mem_map.mp hs with ⟨str, hstr, rfl⟩
      rcases List.mem_map.mp hstr with ⟨c, hc, rfl⟩
      exact natToString_no_sep _
    unfold restore_category_from_scene pySplit
    rw [sceneKey_data, hmm, pySplitAux_append hid _ [],
      pySplitAux_joinSep hstrsne hnosep]
    simp only [List.reverse_nil, List.nil_append, List.map_cons, map_mk_data,
      mk_data]
    rw [if_neg (by simp)]
    simp only [List.tail_cons, List.headD_cons]
    have hdz := decode_zip r (c0 :: cs0) hlen
    simp only [List.map_cons] at hdz
    rw [hdz]

lemma restore_sceneKey (t : RawTable)
    (hcat : ∀ c ∈ t.catCols, c.2.length = t.ids.length)
    (r : Nat) (hr : r < t.ids.length)
    (hid : ∀ c ∈ (t.ids.getD r "").data, c ≠ '_') :
    restore_category_from_scene
        (sceneKey (t.ids.getD r "") (rowCodes t r)) (data_preprocessing t).maps
      = .ok ((t.ids.getD r "") ++ "_" ++
          pyIntercalate '+' (t.catCols.map (fun c => c.2.getD r ""))) :=
  restore_key_generic (t.ids.getD r "") hid t.catCols r
    (fun c hc => by rw [hcat c hc]; exact hr)

lemma sceneKeys_getD (t : RawTable) (r : Nat) (hr : r < t.ids.length) :
    (data_preprocessing t).sceneKeys.getD r "" =
      sceneKey (t.ids.getD r "") (rowCodes t r) := by
  unfold data_preprocessing
  have hlt : r < ((List.range t.ids.length).map
      (fun i => sceneKey (t.ids.getD i "") (rowCodes t i))).length := by
    simpa using hr
  rw [List.getD_eq_getElem _ _ hlt]
  simp

/-- Counterexample to claim C7 as stated.  For the input table with base
identity label `a_b` (containing the key separator `_`) and one category
column with value `x`, the encoding pass produces the scene key `a_b_0`;
decoding that key against the maps of the same pass does not recover
`a_b` with `x` — it raises `int`'s `ValueError` (the segment `b` is parsed
as a category code), so the round trip fails. -/
theorem spec_c7_counterexample :
    (data_preprocessing tblUnderscore).sceneKeys = ["a_b_0"] ∧
    restore_category_from_scene "a_b_0" (data_preprocessing tblUnderscore).maps
      = .error intErrMsg :=
  ⟨rfl, rfl⟩

/-- Claim C7 (corrected).  For every well-formed input table and every row
whose base identity label does not contain the `_` separator, decoding the
scene key produced by the encoding pass against the category map of the
same pass recovers the base label together with every original category
value (joined by `+`), with no `unknown` sentinel; the restriction on the
base label is necessary, as the counterexample shows. -/
theorem spec_c7_amended (t : RawTable) (hWF : t.WF) (r : Nat)
    (hr : r < t.ids.length)
    (hid : ∀ c ∈ (t.ids.getD r "").data, c ≠ '_') :
    restore_category_from_scene ((data_preprocessing t).sceneKeys.getD r "")
        (data_preprocessing t).maps
      = .ok ((t.ids.getD r "") ++ "_" ++
          pyIntercalate '+' (t.catCols.map (fun c => c.2.getD r ""))) := by
  rw [sceneKeys_getD t r hr]
  exact restore_sceneKey t hWF.2.1 r hr hid

/-- Witness for the amended C7: the one-scene table `tblGood` with category
value `x` round-trips to `sceneA_x`. -/
theorem spec_c7_witness :
    tblGood.WF ∧ 0 < tblGood.ids.length ∧
    (∀ c ∈ (tblGood.ids.getD 0 "").data, c ≠ '_') ∧
    restore_category_from_scene ((data_preprocessing tblGood).sceneKeys.getD 0 "")
        (data_preprocessing tblGood).maps
      = .ok ((tblGood.ids.getD 0 "") ++ "_" ++
          pyIntercalate '+' (tblGood.catCols.map (fun c => c.2.getD 0 ""))) :=
  ⟨by decide, by decide, by decide,
    spec_c7_amended tblGood (by decide) 0 (by decide) (by decide)⟩

/-! ## The pivot's row arrangement is a permutation of the data columns -/

lemma find?_eraseP_of_disjoint {α : Type} (p q : α → Bool)
    (hpq : ∀ c, p c = true → q c = false) :
    ∀ l : List α, (l.eraseP p).find? q = l.find? q := by
  intro l
  induction l with
  | nil => rfl
  | cons a l ih =>
    by_cases hp : p a
    · rw [List.eraseP_cons_of_pos hp, List.find?_cons_of_neg _ (by
        rw [hpq a hp]; exact Bool.false_ne_true)]
    · rw [List.eraseP_cons_of_neg hp]
      by_cases hq : q a
      · rw [List.find?_cons_of_pos _ hq, List.find?_cons_of_pos _ hq]
      · rw [List.find?_cons_of_neg _ hq, List.find?_cons_of_neg _ hq, ih]

lemma perm_cons_eraseP_of_find? {α : Type} {p : α → Bool} :
    ∀ {l : List α} {a : α}, l.find? p = some a → l.Perm (a :: l.eraseP p) := by
  intro l
  induction l with
  | nil => intro a h; cases h
  | cons b l ih =>
    intro a h
    by_cases hp : p b
    · rw [List.find?_cons_of_pos _ hp] at h
      have hba : b = a := by injection h
      subst hba
      rw [List.eraseP_cons_of_pos hp]
    · rw [List.find?_cons_of_neg _ hp] at h
      rw [List.eraseP_cons_of_neg hp]
      exact ((ih h).cons b).trans (List.Perm.swap a b _)

lemma filterMap_find?_perm {β : Type} :
    ∀ (names : List String) (cols : List (String × β)),
      (cols.map Prod.fst).Nodup → names.Nodup →
      (∀ c ∈ cols, c.1 ∈ names) →
      (names.filterMap (fun nm => cols.find? (fun c => c.1 == nm))).Perm cols := by
  intro names
  induction names with
  | nil =>
    intro cols _ _ hsub
    cases cols with
    | nil => exact List.Perm.refl _
    | cons c cs => exact absurd (hsub c (List.mem_cons_self _ _)) (List.not_mem_nil _)
  | cons nm rest ih =>
    intro cols hnd hnames hsub
    cases hfind : cols.find? (fun c => c.1 == nm) with
    | none =>
      have hstep : List.filterMap
          (fun nm2 => List.find? (fun c => c.1 == nm2) cols) (nm :: rest) =
          List.filterMap (fun nm2 => List.find? (fun c => c.1 == nm2) cols)
            rest := by
        rw [List.filterMap_cons]
        simp only [hfind]
      rw [hstep]
      have hsub2 : ∀ c ∈ cols, c.1 ∈ rest := by
        intro c hc
        have hne : c.1 ≠ nm := by
          simpa using List.find?_eq_none.mp hfind c hc
        rcases List.mem_cons.mp (hsub c hc) with h | h
        · exact absurd h hne
        · exact h
      exact ih cols hnd hnames.of_cons hsub2
    | some c0 =>
      have hstep : List.filterMap
          (fun nm2 => List.find? (fun c => c.1 == nm2) cols) (nm :: rest) =
          c0 :: List.filterMap (fun nm2 => List.find? (fun c => c.1 == nm2) cols)
            rest := by
        rw [List.filterMap_cons]
        simp only [hfind]
      rw [hstep]
      have hc0 : c0 ∈ cols := List.mem_of_find?_eq_some hfind
      have hc0nm : c0.1 = nm := by simpa using List.find?_some hfind
      have hperm : cols.Perm (c0 :: cols.eraseP (fun c => c.1 == nm)) :=
        perm_cons_eraseP_of_find? hfind
      have hndcols : cols.Nodup := hnd.of_map
      have hnotmem : c0 ∉ cols.eraseP (fun c => c.1 == nm) :=
        (List.nodup_cons.mp (hperm.nodup hndcols)).1
      have hsuberase : ∀ c ∈ cols.eraseP (fun c => c.1 == nm), c.1 ∈ rest := by
        intro c hc
        have hcc : c ∈ cols := (List.eraseP_sublist _).subset hc
        rcases List.mem_cons.mp (hsub c hcc) with h | h
        · exfalso
          have hceq : c = c0 :=
            List.inj_on_of_nodup_map hnd hcc hc0 (h.trans hc0nm.symm)
          exact hnotmem (hceq ▸ hc)
        · exact h
      have hnderase :
          ((cols.eraseP (fun c => c.1 == nm)).map Prod.fst).Nodup :=
        hnd.sublist ((List.eraseP_sublist _).map Prod.fst)
      have hfm : rest.filterMap (fun nm2 => cols.find? (fun c => c.1 == nm2)) =
          rest.filterMap (fun nm2 =>
            (cols.eraseP (fun c => c.1 == nm)).find? (fun c => c.1 == nm2)) := by
        apply List.filterMap_congr
        intro nm2 hnm2
        have hnmne : nm2 ≠ nm := by
          intro hc
          exact (List.nodup_cons.mp hnames).1 (hc ▸ hnm2)
        refine (find?_eraseP_of_disjoint _ _ (fun c hpc => ?_) cols).symm
        have hc1 : c.1 = nm := by simpa using hpc
        exact beq_eq_false_iff_ne.mpr (by rw [hc1]; exact Ne.symm hnmne)
      rw [hfm]
      exact ((ih (cols.eraseP (fun c => c.1 == nm)) hnderase hnames.of_cons
        hsuberase).cons c0).trans hperm.symm

lemma sortDataCols_perm (cols : List (String × List ℝ))
    (hnd : (cols.map Prod.fst).Nodup)
    (hsub : ∀ c ∈ cols, c.1 ∈ desired_order) :
    (sortDataCols cols).Perm cols := by
  unfold sortDataCols
  have hB : cols.filter (fun c => !(desired_order.contains c.1)) = [] := by
    rw [List.filter_eq_nil_iff]
    intro c hc
    simp [hsub c hc]
  rw [hB, List.append_nil]
  exact filterMap_find?_perm desired_order cols hnd (by decide) hsub

/-! ## Coordinate-computation lemmas -/

lemma scene_PE_not8 {vs : List ℝ} (h : vs.length ≠ 8) :
    scene_PE vs = .error unpackMsg := by
  unfold scene_PE
  rcases vs with _ | ⟨a1, _ | ⟨a2, _ | ⟨a3, _ | ⟨a4, _ | ⟨a5, _ | ⟨a6, _ |
    ⟨a7, _ | ⟨a8, _ | ⟨a9, rest⟩⟩⟩⟩⟩⟩⟩⟩⟩ <;>
    first
      | rfl
      | exact absurd rfl h

lemma scene_PE_ok8 {vs : List ℝ} (h : vs.length = 8) :
    ∃ pe, scene_PE vs = .ok pe := by
  unfold scene_PE
  rcases vs with _ | ⟨a1, _ | ⟨a2, _ | ⟨a3, _ | ⟨a4, _ | ⟨a5, _ | ⟨a6, _ |
    ⟨a7, _ | ⟨a8, _ | ⟨a9, rest⟩⟩⟩⟩⟩⟩⟩⟩⟩ <;>
    first
      | exact ⟨_, rfl⟩
      | (exfalso; simp only [List.length_cons, List.length_nil] at h; omega)

lemma compute_P_E_error_head (k : String) {vs : List ℝ}
    (rest : List (String × List ℝ)) (h : vs.length ≠ 8) :
    compute_P_E ((k, vs) :: rest) = .error unpackMsg := by
  unfold compute_P_E
  rw [scene_PE_not8 h]

lemma compute_P_E_ok (locs : List (String × List ℝ))
    (h : ∀ kv ∈ locs, kv.2.length = 8) :
    ∃ pe, compute_P_E locs = .ok pe := by
  induction locs with
  | nil => exact ⟨([], []), rfl⟩
  | cons kv rest ih =>
    rcases kv with ⟨k, vs⟩
    rcases scene_PE_ok8 (h (k, vs) (List.mem_cons_self _ _)) with ⟨⟨P, E⟩, hPE⟩
    rcases ih (fun x hx => h x (List.mem_cons_of_mem _ hx)) with ⟨⟨ps, es⟩, hrest⟩
    refine ⟨(P :: ps, E :: es), ?_⟩
    unfold compute_P_E
    rw [hPE, hrest]

/-! ## The Job Runner's two outcomes on a readable table -/

lemma getD_map_range {α : Type} (n : Nat) (f : Nat → α) (d : α) (r : Nat)
    (hr : r < n) : ((List.range n).map f).getD r d = f r := by
  have hlt : r < ((List.range n).map f).length := by simpa using hr
  rw [List.getD_eq_getElem _ _ hlt]
  simp

lemma mapExcept_map_ok {α β γ : Type} (f : β → Except String γ) (g : α → β)
    (h : α → γ) (l : List α) (hp : ∀ a ∈ l, f (g a) = .ok (h a)) :
    mapExcept f (l.map g) = .ok (l.map h) := by
  induction l with
  | nil => rfl
  | cons a l ih =>
    simp only [List.map_cons, mapExcept, hp a (List.mem_cons_self _ _),
      ih (fun x hx => hp x (List.mem_cons_of_mem _ hx))]

lemma build_locations_ok (t : RawTable)
    (hcat : ∀ c ∈ t.catCols, c.2.length = t.ids.length)
    (hid : ∀ i ∈ t.ids, ∀ c ∈ i.data, c ≠ '_') :
    build_locations t = .ok ((List.range t.ids.length).map
      (fun r => ((t.ids.getD r "") ++ "_" ++
          pyIntercalate '+' (t.catCols.map (fun c => c.2.getD r "")),
        (sortDataCols t.dataCols).map (fun c => c.2.getD r 0)))) := by
  unfold build_locations
  have hme : mapExcept
      (fun k => restore_category_from_scene k (data_preprocessing t).maps)
      (data_preprocessing t).sceneKeys =
      .ok ((List.range t.ids.length).map (fun r => (t.ids.getD r "") ++ "_" ++
        pyIntercalate '+' (t.catCols.map (fun c => c.2.getD r "")))) := by
    apply mapExcept_map_ok
    intro r hrmem
    have hr : r < t.ids.length := List.mem_range.mp hrmem
    exact restore_sceneKey t hcat r hr (hid _ (getD_mem_of_lt hr ""))
  simp only [hme]
  congr 1
  apply List.map_congr_left
  intro r hrmem
  rw [getD_map_range _ _ _ _ (List.mem_range.mp hrmem)]
  rfl

lemma main_run_success (t : RawTable) (hWF : t.WF)
    (hid : ∀ i ∈ t.ids, ∀ c ∈ i.data, c ≠ '_')
    (hsub : ∀ c ∈ t.dataCols, c.1 ∈ desired_order)
    (hlen : t.dataCols.length = 8)
    (μ : ℝ) (p id now pv : String) (f1 f2 : Bool) (meta0 : MetaStore) :
    main_run μ (some t) p id now pv f1 f2 meta0 =
      { meta := setMeta meta0 id
          { file_id := id, filename := basename p, status := "done",
            processed_at := some now,
            plots := (if f1 then [id ++ "_plot1.png"] else []) ++
              (if f2 then [id ++ "_plot2.png"] else []),
            preview_html := pv },
        inputDeleted := true, crashed := none } := by
  unfold main_run
  simp only [build_locations_ok t hWF.2.1 hid]
  have hvlen : ∀ kv ∈ (List.range t.ids.length).map
      (fun r => ((t.ids.getD r "") ++ "_" ++
          pyIntercalate '+' (t.catCols.map (fun c => c.2.getD r "")),
        (sortDataCols t.dataCols).map (fun c => c.2.getD r 0))),
      kv.2.length = 8 := by
    intro kv hkv
    rcases List.mem_map.mp hkv with ⟨r, _, rfl⟩
    simp only [List.length_map]
    rw [(sortDataCols_perm t.dataCols hWF.2.2 hsub).length_eq]
    exact hlen
  rcases compute_P_E_ok _ hvlen with ⟨⟨ps, es⟩, hok⟩
  simp only [hok]

lemma main_run_crash (t : RawTable) (hWF : t.WF)
    (hid : ∀ i ∈ t.ids, ∀ c ∈ i.data, c ≠ '_')
    (hsub : ∀ c ∈ t.dataCols, c.1 ∈ desired_order)
    (hne : t.ids ≠ []) (hmiss : t.dataCols.length ≠ 8)
    (μ : ℝ) (p id now pv : String) (f1 f2 : Bool) (meta0 : MetaStore) :
    main_run μ (some t) p id now pv f1 f2 meta0 =
      { meta := meta0, inputDeleted := false, crashed := some unpackMsg } := by
  unfold main_run
  simp only [build_locations_ok t hWF.2.1 hid]
  obtain ⟨m, hm⟩ : ∃ m, t.ids.length = m + 1 :=
    ⟨t.ids.length - 1, by
      have := List.length_pos.mpr hne
      omega⟩
  have hloc : compute_P_E ((List.range t.ids.length).map
      (fun r => ((t.ids.getD r "") ++ "_" ++
          pyIntercalate '+' (t.catCols.map (fun c => c.2.getD r "")),
        (sortDataCols t.dataCols).map (fun c => c.2.getD r 0)))) =
      .error unpackMsg := by
    rw [hm, List.range_succ_eq_map, List.map_cons]
    exact compute_P_E_error_head _ _ (by
      simp only [List.length_map]
      rw [(sortDataCols_perm t.dataCols hWF.2.2 hsub).length_eq]
      exact hmiss)
  simp only [hloc]

/-! ## Job Store lemmas -/

lemma lookup_map_set (meta : MetaStore) (id : String) (r : JobRec) :
    (meta.map (fun kv => if kv.1 == id then (kv.1, r) else kv)).lookup id =
      if (meta.lookup id).isSome then some r else none := by
  induction meta with
  | nil => rfl
  | cons kv rest ih =>
    rcases kv with ⟨k, v⟩
    simp only [beq_iff_eq] at ih
    by_cases h : k = id
    · have h1 : (k == id) = true := beq_iff_eq.mpr h
      have h2 : (id == k) = true := beq_iff_eq.mpr h.symm
      simp only [List.map_cons]
      rw [if_pos h1]
      simp [List.lookup, h2, ih]
    · have h1 : (k == id) = false := beq_eq_false_iff_ne.mpr h
      have h2 : (id == k) = false := beq_eq_false_iff_ne.mpr (Ne.symm h)
      simp only [List.map_cons]
      rw [if_neg (by simp [h1])]
      simp [List.lookup, h2, ih]
      rw [h2]

lemma lookup_append_single (meta : MetaStore) (id : String) (r : JobRec)
    (h : meta.lookup id = none) : (meta ++ [(id, r)]).lookup id = some r := by
  induction meta with
  | nil => simp [List.lookup]
  | cons kv rest ih =>
    rcases kv with ⟨k, v⟩
    by_cases hk : k = id
    · have h2 : (id == k) = true := beq_iff_eq.mpr hk.symm
      simp [List.lookup, h2] at h
    · have h2 : (id == k) = false := beq_eq_false_iff_ne.mpr (Ne.symm hk)
      simp only [List.lookup, h2] at h
      simp only [List.cons_append, List.lookup, h2]
      exact ih h

lemma lookup_setMeta (meta : MetaStore) (id : String) (r : JobRec) :
    (setMeta meta id r).lookup id = some r := by
  unfold setMeta
  by_cases h : (meta.lookup id).isSome
  · rw [if_pos h, lookup_map_set, if_pos h]
  · rw [if_neg h]
    exact lookup_append_single meta id r (Option.not_isSome_iff_eq_none.mp h)

lemma update_meta_absent (meta : MetaStore) (id : String) (f : JobRec → JobRec)
    (h : meta.lookup id = none) : update_meta meta id f = meta := by
  unfold update_meta
  rw [h]
  rfl

/-- Claim C8 (confirmed).  The cleanup sweeper's meta-purging pass keeps a
Job Store entry iff at least one of its recorded plot files exists at the
checked path; in particular every entry whose recorded plots list is empty
— which is every job still in status `processing` and every job in status
`error`, since only the success path ever records plots — is removed. -/
theorem spec_c8_cleanup (meta : MetaStore) (ex : String → Bool)
    (kv : String × JobRec) :
    (kv ∈ cleanup_meta meta ex ↔ kv ∈ meta ∧ kv.2.plots.any ex = true) ∧
    (kv.2.plots = [] → kv ∉ cleanup_meta meta ex) := by
  refine ⟨List.mem_filter, fun hempty hmem => ?_⟩
  have h2 := (List.mem_filter.mp hmem).2
  rw [hempty] at h2
  simp at h2

/-- Witness for C8: a `processing` entry (empty plots list) is purged. -/
theorem spec_c8_witness :
    (("j1", procRec) ∈ cleanup_meta [("j1", procRec)] (fun _ => true) ↔
      ("j1", procRec) ∈ ([("j1", procRec)] : MetaStore) ∧
        ("j1", procRec).2.plots.any (fun _ => true) = true) ∧
    ("j1", procRec) ∉ cleanup_meta [("j1", procRec)] (fun _ => true) :=
  ⟨(spec_c8_cleanup [("j1", procRec)] (fun _ => true) ("j1", procRec)).1,
   (spec_c8_cleanup [("j1", procRec)] (fun _ => true) ("j1", procRec)).2 rfl⟩


/-! ## Claim theorems: Job Runner lifecycle -/

/-- Counterexample to claim C1 as stated.  For the table `tblMissingCalm`,
whose required rating dimension `calm` is absent, the Job Runner does not
set the job's status to `error`: the per-scene vector has 7 entries, the
unpacking in `compute_P_E` raises an uncaught `ValueError` outside the
runner's `try`/`except`, the store is left untouched, and the job stays in
status `processing`. -/
theorem spec_c1_counterexample :
    (main_run FIXED_MAX (some tblMissingCalm) "uploads/f.xlsx" "j1" "t0" ""
        true true [("j1", procRec)]).meta = [("j1", procRec)] ∧
    ((main_run FIXED_MAX (some tblMissingCalm) "uploads/f.xlsx" "j1" "t0" ""
        true true [("j1", procRec)]).meta.lookup "j1").map JobRec.status
      = some "processing" ∧
    (main_run FIXED_MAX (some tblMissingCalm) "uploads/f.xlsx" "j1" "t0" ""
        true true [("j1", procRec)]).crashed = some unpackMsg :=
  ⟨rfl, rfl, rfl⟩

/-- Claim C1 (corrected).  For every well-formed input table with at least
one scene, underscore-free identity labels, and data columns drawn from the
rating vocabulary but with one of the eight required dimensions absent
(fewer than 8 data columns), the pipeline fails with an uncaught
`ValueError` raised by the 8-way unpacking in `compute_P_E` — which runs
*outside* the Job Runner's `try`/`except` — so no terminal write happens:
the store is unchanged, the job remains `processing`, and the uploaded
file is not deleted.  (Only exceptions raised while loading and reshaping,
lines 322–334, set the status to `error`.) -/
theorem spec_c1_amended (t : RawTable) (hWF : t.WF)
    (hid : ∀ i ∈ t.ids, ∀ c ∈ i.data, c ≠ '_')
    (hsub : ∀ c ∈ t.dataCols, c.1 ∈ desired_order)
    (hne : t.ids ≠ []) (hmiss : t.dataCols.length ≠ 8)
    (p id now pv : String) (f1 f2 : Bool) (meta0 : MetaStore) :
    (main_run FIXED_MAX (some t) p id now pv f1 f2 meta0).meta = meta0 ∧
    (main_run FIXED_MAX (some t) p id now pv f1 f2 meta0).inputDeleted
      = false ∧
    (main_run FIXED_MAX (some t) p id now pv f1 f2 meta0).crashed
      = some unpackMsg := by
  rw [main_run_crash t hWF hid hsub hne hmiss FIXED_MAX p id now pv f1 f2
    meta0]
  exact ⟨rfl, rfl, rfl⟩

/-- Witness for the amended C1 at the concrete table `tblMissingCalm`. -/
theorem spec_c1_witness :
    tblMissingCalm.WF ∧
    (∀ i ∈ tblMissingCalm.ids, ∀ c ∈ i.data, c ≠ '_') ∧
    (∀ c ∈ tblMissingCalm.dataCols, c.1 ∈ desired_order) ∧
    tblMissingCalm.ids ≠ [] ∧ tblMissingCalm.dataCols.length ≠ 8 ∧
    ((main_run FIXED_MAX (some tblMissingCalm) "uploads/f.xlsx" "j1" "t0" ""
        true true [("j1", procRec)]).meta = [("j1", procRec)] ∧
     (main_run FIXED_MAX (some tblMissingCalm) "uploads/f.xlsx" "j1" "t0" ""
        true true [("j1", procRec)]).inputDeleted = false ∧
     (main_run FIXED_MAX (some tblMissingCalm) "uploads/f.xlsx" "j1" "t0" ""
        true true [("j1", procRec)]).crashed = some unpackMsg) :=
  ⟨by decide, by decide, by decide, by decide, by decide,
    spec_c1_amended tblMissingCalm (by decide) (by decide) (by decide)
      (by decide) (by decide) "uploads/f.xlsx" "j1" "t0" "" true true
      [("j1", procRec)]⟩

/-- Counterexample to claim C2 as stated.  On the Job Runner's error path
(unreadable input) the terminal write does happen — the job flips to
`error` — but the uploaded file is *not* deleted: the `except` branch
returns before the `os.remove` at the end of the success path, so deletion
is not attempted on both paths. -/
theorem spec_c2_counterexample :
    main_run FIXED_MAX none "uploads/f.xlsx" "j1" "t0" "" true true
        [("j1", procRec)] =
      { meta := [("j1", { procRec with status := "error" })],
        inputDeleted := false, crashed := none } :=
  rfl

/-- Claim C2 (corrected).  The uploaded input file is deleted only on the
success path: after the `"done"` terminal write the runner attempts the
removal (swallowing its failure), but on the error path the runner returns
immediately after the `"error"` write and the uploaded file stays on
disk. -/
theorem spec_c2_amended (t : RawTable) (hWF : t.WF)
    (hid : ∀ i ∈ t.ids, ∀ c ∈ i.data, c ≠ '_')
    (hsub : ∀ c ∈ t.dataCols, c.1 ∈ desired_order)
    (hlen : t.dataCols.length = 8)
    (μ : ℝ) (p id now pv : String) (f1 f2 : Bool) (meta0 : MetaStore) :
    (main_run μ none p id now pv f1 f2 meta0).inputDeleted = false ∧
    (main_run μ (some t) p id now pv f1 f2 meta0).inputDeleted = true := by
  refine ⟨rfl, ?_⟩
  rw [main_run_success t hWF hid hsub hlen μ p id now pv f1 f2 meta0]

/-- Witness for the amended C2: error path keeps the file, success path
removes it, at the concrete table `tblGood`. -/
theorem spec_c2_witness :
    tblGood.WF ∧
    (∀ i ∈ tblGood.ids, ∀ c ∈ i.data, c ≠ '_') ∧
    (∀ c ∈ tblGood.dataCols, c.1 ∈ desired_order) ∧
    tblGood.dataCols.length = 8 ∧
    ((main_run FIXED_MAX none "uploads/g.xlsx" "j2" "t0" "" true true
        []).inputDeleted = false ∧
     (main_run FIXED_MAX (some tblGood) "uploads/g.xlsx" "j2" "t0" "" true
        true []).inputDeleted = true) :=
  ⟨by decide, by decide, by decide, by decide,
    spec_c2_amended tblGood (by decide) (by decide) (by decide) (by decide)
      FIXED_MAX "uploads/g.xlsx" "j2" "t0" "" true true []⟩

/-- Counterexample to claim C6 as stated.  No configuration-time validation
exists: with the normalization maximum set to `-1` (a non-positive value
the claim says must be rejected with a `ConfigurationError` before any job
runs), a job still executes the whole pipeline — normalizer included — and
terminates in status `done` with no error of any kind. -/
theorem spec_c6_counterexample :
    ¬ ((0 : ℝ) < -1) ∧
    ((main_run (-1) (some tblGood) "uploads/g.xlsx" "j2" "t0" "" true true
        []).meta.lookup "j2").map JobRec.status = some "done" ∧
    (main_run (-1) (some tblGood) "uploads/g.xlsx" "j2" "t0" "" true true
        []).crashed = none :=
  ⟨by norm_num, rfl, rfl⟩

/-- Claim C6 (corrected).  The configured normalization maximum is the
hard-coded module constant `FIXED_MAX = 7.0`, which is positive, so the
shipped program never runs the normalizer with a non-positive maximum; but
there is no validation anywhere: for **any** configured value `μ` —
including zero or negative ones — a job runs the normalizer and completes
in status `done`; no `ConfigurationError` (or any rejection) exists. -/
theorem spec_c6_amended (t : RawTable) (hWF : t.WF)
    (hid : ∀ i ∈ t.ids, ∀ c ∈ i.data, c ≠ '_')
    (hsub : ∀ c ∈ t.dataCols, c.1 ∈ desired_order)
    (hlen : t.dataCols.length = 8)
    (μ : ℝ) (p id now pv : String) (f1 f2 : Bool) (meta0 : MetaStore) :
    FIXED_MAX = 7 ∧ (0 : ℝ) < FIXED_MAX ∧
    ((main_run μ (some t) p id now pv f1 f2 meta0).meta.lookup id).map
        JobRec.status = some "done" ∧
    (main_run μ (some t) p id now pv f1 f2 meta0).crashed = none := by
  rw [main_run_success t hWF hid hsub hlen μ p id now pv f1 f2 meta0]
  refine ⟨rfl, by norm_num [FIXED_MAX], ?_, rfl⟩
  rw [lookup_setMeta]
  rfl

/-- Witness for the amended C6 at `μ = -1` and the table `tblGood`. -/
theorem spec_c6_witness :
    tblGood.WF ∧
    (∀ i ∈ tblGood.ids, ∀ c ∈ i.data, c ≠ '_') ∧
    (∀ c ∈ tblGood.dataCols, c.1 ∈ desired_order) ∧
    tblGood.dataCols.length = 8 ∧
    (FIXED_MAX = 7 ∧ (0 : ℝ) < FIXED_MAX ∧
     ((main_run (-1) (some tblGood) "uploads/g.xlsx" "j6" "t0" "" true true
        []).meta.lookup "j6").map JobRec.status = some "done" ∧
     (main_run (-1) (some tblGood) "uploads/g.xlsx" "j6" "t0" "" true true
        []).crashed = none) :=
  ⟨by decide, by decide, by decide, by decide,
    spec_c6_amended tblGood (by decide) (by decide) (by decide) (by decide)
      (-1) "uploads/g.xlsx" "j6" "t0" "" true true []⟩

/-- Claim C9 (confirmed).  The Job Runner's success-path terminal write is
not a pure update: when the job id is absent from the store at write time
(e.g. swept by cleanup), the write inserts a fresh record whose status is
`done` — the job reappears — whereas `update_meta` on an absent id leaves
the store unchanged, so in particular the `error` terminal write on an
absent id is a no-op. -/
theorem spec_c9_store_write (t : RawTable) (hWF : t.WF)
    (hid : ∀ i ∈ t.ids, ∀ c ∈ i.data, c ≠ '_')
    (hsub : ∀ c ∈ t.dataCols, c.1 ∈ desired_order)
    (hlen : t.dataCols.length = 8)
    (μ : ℝ) (p id now pv : String) (f1 f2 : Bool) (meta0 : MetaStore)
    (habsent : meta0.lookup id = none) :
    ((main_run μ (some t) p id now pv f1 f2 meta0).meta.lookup id).map
        JobRec.status = some "done" ∧
    (main_run μ none p id now pv f1 f2 meta0).meta = meta0 := by
  constructor
  · rw [main_run_success t hWF hid hsub hlen μ p id now pv f1 f2 meta0]
    rw [lookup_setMeta]
    rfl
  · show update_meta meta0 id (fun r => { r with status := "error" }) = meta0
    exact update_meta_absent meta0 id _ habsent

/-- Witness for C9: on the empty store (absent id) the success write
inserts a `done` record and the error write leaves the store empty. -/
theorem spec_c9_witness :
    tblGood.WF ∧
    (∀ i ∈ tblGood.ids, ∀ c ∈ i.data, c ≠ '_') ∧
    (∀ c ∈ tblGood.dataCols, c.1 ∈ desired_order) ∧
    tblGood.dataCols.length = 8 ∧
    (([] : MetaStore).lookup "j9" = none) ∧
    (((main_run FIXED_MAX (some tblGood) "uploads/g.xlsx" "j9" "t0" "" true
        true []).meta.lookup "j9").map JobRec.status = some "done" ∧
     (main_run FIXED_MAX none "uploads/g.xlsx" "j9" "t0" "" true true
        []).meta = ([] : MetaStore)) :=
  ⟨by decide, by decide, by decide, by decide, rfl,
    spec_c9_store_write tblGood (by decide) (by decide) (by decide)
      (by decide) FIXED_MAX "uploads/g.xlsx" "j9" "t0" "" true true [] rfl⟩

end ToolBox
